import Mathlib

/-!
# Verification of the Onishi tide-prediction core (`src/opp.py`)

Shallow embedding of the data model and the computational core of the
script: the pressure-derived height correction, the per-day data-source
selection (`OnishiTideModel.generate_daily_curve`), the anchor collection
of `get_dataframe` together with its cosine densification loop, the peak
collection (`peaks_to_plot`) and the work-window extraction
(`safe_windows`).

Timestamps are modelled as integer minutes since a fixed epoch (a day is
1440 minutes); `datetime` values occurring in the script are always whole
minutes, so this is exact.  Levels are integers (centimetres) where the
script handles table data, and real numbers where the cosine
interpolation produces them.
-/

namespace Opp

/-! ## Correction pipeline (`OnishiTideModel.__init__`, pressure term)

The script computes `self.pressure_correction = int(STANDARD_PRESSURE -
pressure_hpa)` with `STANDARD_PRESSURE = 1013`; Python `int()` truncates
toward zero.  The correction is added to every level that flows through
`generate_daily_curve`. -/

/-- Python `int(q)`: truncation toward zero. -/
def pyInt (q : ℚ) : ℤ := if 0 ≤ q then ⌊q⌋ else ⌈q⌉

/-- `int(STANDARD_PRESSURE - pressure_hpa)` from `OnishiTideModel.__init__`. -/
def pressure_correction (pressure_hpa : ℚ) : ℤ := pyInt (1013 - pressure_hpa)

/-- Adding a fixed offset to every sample's level, as the script does with
`p_level + self.pressure_correction` / `val + self.pressure_correction`. -/
def correct_levels (pc : ℤ) (samples : List (ℤ × ℤ)) : List (ℤ × ℤ) :=
  samples.map fun p => (p.1, p.2 + pc)

/-- Modelled from the spec: the total height offset
`base_offset_cm + (standard_pressure_hpa − pressure_hpa)` of
`CorrectionPipeline`.  A `base_offset_cm` parameter does not occur
anywhere in `src/opp.py`; this definition follows the spec's words so the
claims about it can be stated and compared with the code. -/
def spec_total_offset (base_offset_cm pressure_hpa : ℚ) : ℚ :=
  base_offset_cm + (1013 - pressure_hpa)

/-- Modelled from the spec: `CorrectionPipeline.correct` applying the
spec's additive height correction to every sample (levels as rationals,
no truncation is mentioned by the spec). -/
def spec_correct (base_offset_cm pressure_hpa : ℚ) (s : List (ℤ × ℚ)) :
    List (ℤ × ℚ) :=
  s.map fun p => (p.1, p.2 + spec_total_offset base_offset_cm pressure_hpa)

/-- Per-sample level changes produced by one pass of the spec's
correction pipeline. -/
def level_changes (base_offset_cm pressure_hpa : ℚ) (s : List (ℤ × ℚ)) :
    List ℚ :=
  List.zipWith (fun q r => q.2 - r.2) (spec_correct base_offset_cm pressure_hpa s) s

theorem level_changes_cons (a p : ℚ) (x : ℤ × ℚ) (s : List (ℤ × ℚ)) :
    level_changes a p (x :: s)
      = (x.2 + spec_total_offset a p - x.2) :: level_changes a p s := by
  simp [level_changes, spec_correct]

/-! ## Per-day data sources (`OnishiTideModel.generate_daily_curve`)

The script consults three dictionaries: `self.user_data` (parsed manual
input), the module constant `MANUAL_TIDE_DATA`, and `self.jma_map`
(agency hourly data).  They are modelled as functions from a day index to
an optional entry.  A peak entry `("HH:MM", level, kind)` becomes a
`RawPeak` with `time` in minutes within the day. -/

/-- `"H"` / `"L"` markers of the peak tables. -/
inductive PKind where
  | H : PKind
  | L : PKind
deriving DecidableEq

/-- One `(time-of-day, level, kind)` entry of a peak table. -/
structure RawPeak where
  time : ℤ
  level : ℤ
  kind : PKind
deriving DecidableEq

/-- `OnishiTideModel.generate_daily_curve(date_str)`.  The script sets
`peaks = user_data[d]` if the key is present (an `elif` skips
`MANUAL_TIDE_DATA` even when that list is empty), else
`peaks = MANUAL_TIDE_DATA[d]` if present, else `[]`; a non-empty `peaks`
yields the corrected peak anchors, otherwise a present `jma_map[d]` entry
yields corrected hourly anchors, otherwise the result is `None`. -/
def generate_daily_curve (user manual : ℤ → Option (List RawPeak))
    (jma : ℤ → Option (List ℤ)) (pc : ℤ) (d : ℤ) : Option (List (ℤ × ℤ)) :=
  let peaks : List RawPeak :=
    match user d with
    | some ps => ps
    | none =>
      match manual d with
      | some ps => ps
      | none => []
  if peaks ≠ [] then
    some (peaks.map fun p => (d * 1440 + p.time, p.level + pc))
  else
    match jma d with
    | some hourly => some (hourly.enum.map fun hv => (d * 1440 + (hv.1 : ℤ) * 60, hv.2 + pc))
    | none => none

/-- The anchor-collection loop of `OnishiTideModel.get_dataframe`: days
`start_date - 1` through `start_date + days + 1` inclusive, skipping days
for which `generate_daily_curve` returns `None`. -/
def collect_points (user manual : ℤ → Option (List RawPeak))
    (jma : ℤ → Option (List ℤ)) (pc : ℤ) (startDay : ℤ) (days : ℕ) : List (ℤ × ℤ) :=
  (List.range (days + 3)).flatMap fun k =>
    (generate_daily_curve user manual jma pc (startDay - 1 + (k : ℤ))).getD []

/-- The per-day source selection of the plotting loop (`peaks_src`):
user data if the key is present, else the built-in table, else nothing. -/
def peaksForDay (user manual : ℤ → Option (List RawPeak)) (d : ℤ) : List RawPeak :=
  match user d with
  | some ps => ps
  | none =>
    match manual d with
    | some ps => ps
    | none => []

/-- The `peaks_to_plot` loop: for the five displayed days, every source
peak with the pressure correction added to its level. -/
def peaks_to_plot (user manual : ℤ → Option (List RawPeak)) (pc : ℤ) (d0 : ℤ) :
    List (ℤ × ℤ × PKind) :=
  (List.range 5).flatMap fun k =>
    (peaksForDay user manual (d0 + (k : ℤ))).map fun p =>
      ((d0 + (k : ℤ)) * 1440 + p.time, p.level + pc, p.kind)

/-! ## Cosine densification (`OnishiTideModel.get_dataframe`, lines 241-253)

For each consecutive anchor pair the script emits one point per minute
`m = 0, …, diff_min − 1` with
`val = l1·(1−μ) + l2·μ`, `μ = (1 − cos((m/diff_min)·π))/2`; pairs with
`diff_min ≤ 0` are skipped (`continue`).  Note the loop never emits the
right endpoint `t2` of a segment, so the final anchor of the whole
sequence is absent from the output. -/

/-- One interpolated level of the cosine loop. -/
noncomputable def cosInterp (l1 l2 : ℝ) (m diff : ℕ) : ℝ :=
  let ratio : ℝ := (m : ℝ) / (diff : ℝ)
  let mu2 : ℝ := (1 - Real.cos (ratio * Real.pi)) / 2
  l1 * (1 - mu2) + l2 * mu2

/-- The inner loop of the densifier for one anchor pair: minutes
`t1, t1+1, …, t2−1` (empty when `t2 ≤ t1`, matching the `continue`). -/
noncomputable def densifyPair (t1 t2 : ℤ) (l1 l2 : ℝ) : List (ℤ × ℝ) :=
  (List.range (t2 - t1).toNat).map fun m : ℕ =>
    (t1 + (m : ℤ), cosInterp l1 l2 m (t2 - t1).toNat)

/-- The outer loop over consecutive anchor pairs. -/
noncomputable def densify : List (ℤ × ℝ) → List (ℤ × ℝ)
  | [] => []
  | [_] => []
  | a :: b :: rest => densifyPair a.1 b.1 a.2 b.2 ++ densify (b :: rest)

theorem cosInterp_zero (l1 l2 : ℝ) (diff : ℕ) : cosInterp l1 l2 0 diff = l1 := by
  simp [cosInterp]

theorem densifyPair_time_bounds {t1 t2 : ℤ} {l1 l2 : ℝ} {p : ℤ × ℝ}
    (hp : p ∈ densifyPair t1 t2 l1 l2) : t1 ≤ p.1 ∧ p.1 < t2 := by
  rcases List.mem_map.mp hp with ⟨m, hm, rfl⟩
  have hm' := List.mem_range.mp hm
  constructor
  · simp only []
    omega
  · simp only []
    omega

theorem mem_densifyPair_self (t1 t2 : ℤ) (l1 l2 : ℝ) (h : t1 < t2) :
    (t1, l1) ∈ densifyPair t1 t2 l1 l2 := by
  have hd : 0 < (t2 - t1).toNat := by omega
  refine List.mem_map.mpr ⟨0, List.mem_range.mpr hd, ?_⟩
  simp [cosInterp_zero]

theorem densifyPair_at_start {t1 t2 : ℤ} {l1 l2 : ℝ} {p : ℤ × ℝ}
    (hp : p ∈ densifyPair t1 t2 l1 l2) (ht : p.1 = t1) : p.2 = l1 := by
  rcases List.mem_map.mp hp with ⟨m, hm, rfl⟩
  have hm0 : m = 0 := by
    simp only [] at ht
    omega
  subst hm0
  simp [cosInterp_zero]

theorem densify_time_lower {a : ℤ × ℝ} {rest : List (ℤ × ℝ)}
    (hs : List.Pairwise (fun p q : ℤ × ℝ => p.1 < q.1) (a :: rest)) :
    ∀ p ∈ densify (a :: rest), a.1 ≤ p.1 := by
  induction rest generalizing a with
  | nil =>
    intro p hp
    simp [densify] at hp
  | cons b rest ih =>
    intro p hp
    rw [densify] at hp
    rcases List.mem_append.mp hp with h | h
    · exact (densifyPair_time_bounds h).1
    · have hb := ih (List.pairwise_cons.mp hs).2 p h
      have hab : a.1 < b.1 := (List.pairwise_cons.mp hs).1 b (by simp)
      omega

theorem head_time_le_get {b : ℤ × ℝ} {l : List (ℤ × ℝ)}
    (hs : List.Pairwise (fun p q : ℤ × ℝ => p.1 < q.1) (b :: l))
    (j : ℕ) (hj : j < (b :: l).length) : b.1 ≤ ((b :: l).get ⟨j, hj⟩).1 := by
  cases j with
  | zero => exact le_refl _
  | succ k =>
    have hk : k < l.length := by simpa using hj
    have hmem : l.get ⟨k, hk⟩ ∈ l := List.get_mem l k hk
    exact le_of_lt ((List.pairwise_cons.mp hs).1 _ hmem)

/-- Strict interior bounds for one interpolated value. -/
theorem cosInterp_strict_bounds {l1 l2 : ℝ} (hl : l1 < l2) {m diff : ℕ}
    (hm1 : 1 ≤ m) (hmd : m < diff) :
    l1 < cosInterp l1 l2 m diff ∧ cosInterp l1 l2 m diff < l2 := by
  have hd0 : (0 : ℝ) < (diff : ℝ) := by
    have : 0 < diff := lt_of_le_of_lt (Nat.zero_le m) hmd
    exact_mod_cast this
  have hr0 : (0 : ℝ) < (m : ℝ) / (diff : ℝ) := by
    apply div_pos _ hd0
    exact_mod_cast hm1
  have hr1 : (m : ℝ) / (diff : ℝ) < 1 := by
    rw [div_lt_one hd0]
    exact_mod_cast hmd
  set r : ℝ := (m : ℝ) / (diff : ℝ) with hr
  have hx0 : (0 : ℝ) < r * Real.pi := mul_pos hr0 Real.pi_pos
  have hxpi : r * Real.pi < Real.pi := by
    have := mul_lt_mul_of_pos_right hr1 Real.pi_pos
    simpa using this
  have hcos1 : Real.cos (r * Real.pi) < 1 := by
    have h := Real.cos_lt_cos_of_nonneg_of_le_pi (le_refl 0) (le_of_lt hxpi) hx0
    simpa [Real.cos_zero] using h
  have hcosneg : -1 < Real.cos (r * Real.pi) := by
    have h := Real.cos_lt_cos_of_nonneg_of_le_pi (le_of_lt hx0) (le_refl Real.pi) hxpi
    simpa [Real.cos_pi] using h
  have hmu0 : (0 : ℝ) < (1 - Real.cos (r * Real.pi)) / 2 := by linarith
  have hmu1 : (1 - Real.cos (r * Real.pi)) / 2 < 1 := by linarith
  constructor
  · show l1 < l1 * (1 - (1 - Real.cos (r * Real.pi)) / 2)
      + l2 * ((1 - Real.cos (r * Real.pi)) / 2)
    nlinarith
  · show l1 * (1 - (1 - Real.cos (r * Real.pi)) / 2)
      + l2 * ((1 - Real.cos (r * Real.pi)) / 2) < l2
    nlinarith

/-- The two-anchor run `(0,100)`, `(60,200)` in closed form: one point
per minute `0 … 59`. -/
theorem densify_two_anchors :
    densify [((0 : ℤ), (100 : ℝ)), ((60 : ℤ), (200 : ℝ))]
      = (List.range 60).map (fun m : ℕ => ((m : ℤ), cosInterp 100 200 m 60)) := by
  rw [densify, densify, List.append_nil]
  show (List.range 60).map (fun m : ℕ => ((0 : ℤ) + (m : ℤ), cosInterp 100 200 m 60)) = _
  apply List.map_congr_left
  intro m _
  congr 1
  omega

/-! ## Work-window extraction (`safe_windows`, lines 351-371)

The script flags each dense sample with
`is_safe = (level <= target_cm) & (hour >= start_h) & (hour < end_h)`,
groups maximal contiguous `is_safe` runs (`grp` via `shift`/`cumsum`),
keeps runs spanning at least 600 seconds, and records for each run its
first and last timestamp and the first sample attaining the minimal
level (`idxmin`).  Levels are kept abstract in a linear order. -/

/-- Python `dt.hour` for a timestamp in minutes since the epoch. -/
def hourOf (t : ℤ) : ℤ := t % 1440 / 60

/-- The `is_safe` flag of one sample. -/
def is_safe {α : Type} [LinearOrder α] (thr : α) (sh eh : ℤ) (p : ℤ × α) : Bool :=
  decide (p.2 ≤ thr) && decide (sh ≤ hourOf p.1) && decide (hourOf p.1 < eh)

/-- Maximal contiguous runs on which `f` holds (the safe groups of the
`groupby`). -/
def runsTrue {β : Type} (f : β → Bool) : List β → List (List β)
  | [] => []
  | x :: xs =>
    if f x then (x :: xs.takeWhile f) :: runsTrue f (xs.dropWhile f)
    else runsTrue f xs
termination_by l => l.length
decreasing_by
  · simp only [List.length_cons]
    exact Nat.lt_succ_of_le (List.dropWhile_sublist f).length_le
  · simp

/-- First sample attaining the minimal level of a run
(`g['level'].idxmin()` keeps the first occurrence). -/
def minSample {α : Type} [LinearOrder α] (p : ℤ × α) (rest : List (ℤ × α)) : ℤ × α :=
  rest.foldl (fun acc q => if q.2 < acc.2 then q else acc) p

/-- One entry of the `safe_windows` list: start, end, and the minimum
sample used to anchor the annotation. -/
structure Window (α : Type) where
  wstart : ℤ
  wend : ℤ
  minTime : ℤ
  minLevel : α
deriving DecidableEq

/-- The per-run body of the `safe_windows` loop: keep the run if it spans
at least 600 seconds. -/
def runWindow {α : Type} [LinearOrder α] : List (ℤ × α) → Option (Window α)
  | [] => none
  | p :: ps =>
    if 600 ≤ (((p :: ps).getLast (List.cons_ne_nil p ps)).1 - p.1) * 60 then
      some ⟨p.1, ((p :: ps).getLast (List.cons_ne_nil p ps)).1,
        (minSample p ps).1, (minSample p ps).2⟩
    else none

/-- `safe_windows` of the script. -/
def safe_windows {α : Type} [LinearOrder α] (series : List (ℤ × α)) (thr : α)
    (sh eh : ℤ) : List (Window α) :=
  (runsTrue (is_safe thr sh eh) series).filterMap runWindow

/-! ### Structural facts about `runsTrue` -/

theorem runsTrue_sublist {β : Type} (f : β → Bool) (l : List β) :
    ∀ g ∈ runsTrue f l, g.Sublist l := by
  induction l using runsTrue.induct f with
  | case1 =>
    intro g hg
    simp [runsTrue] at hg
  | case2 x xs hfx ih =>
    intro g hg
    rw [runsTrue, if_pos hfx] at hg
    rcases List.mem_cons.mp hg with rfl | hg'
    · exact List.Sublist.cons₂ x (List.takeWhile_sublist f)
    · exact ((ih g hg').trans (List.dropWhile_sublist f)).cons x
  | case3 x xs hfx ih =>
    intro g hg
    rw [runsTrue, if_neg hfx] at hg
    exact (ih g hg).cons x

theorem runsTrue_ne_nil {β : Type} (f : β → Bool) (l : List β) :
    ∀ g ∈ runsTrue f l, g ≠ [] := by
  induction l using runsTrue.induct f with
  | case1 =>
    intro g hg
    simp [runsTrue] at hg
  | case2 x xs hfx ih =>
    intro g hg
    rw [runsTrue, if_pos hfx] at hg
    rcases List.mem_cons.mp hg with rfl | hg'
    · exact List.cons_ne_nil _ _
    · exact ih g hg'
  | case3 x xs hfx ih =>
    intro g hg
    rw [runsTrue, if_neg hfx] at hg
    exact ih g hg

theorem runsTrue_all_true {β : Type} (f : β → Bool) (l : List β) :
    ∀ g ∈ runsTrue f l, ∀ x ∈ g, f x = true := by
  induction l using runsTrue.induct f with
  | case1 =>
    intro g hg
    simp [runsTrue] at hg
  | case2 x xs hfx ih =>
    intro g hg y hy
    rw [runsTrue, if_pos hfx] at hg
    rcases List.mem_cons.mp hg with rfl | hg'
    · rcases List.mem_cons.mp hy with rfl | hy'
      · exact hfx
      · exact List.mem_takeWhile_imp hy'
    · exact ih g hg' y hy
  | case3 x xs hfx ih =>
    intro g hg
    rw [runsTrue, if_neg hfx] at hg
    exact ih g hg

/-- Distinct runs are totally ordered: every element of an earlier run
precedes every element of a later run. -/
theorem runsTrue_cross {β : Type} (R : β → β → Prop) (f : β → Bool) (l : List β)
    (hs : List.Pairwise R l) :
    List.Pairwise (fun g1 g2 => ∀ a ∈ g1, ∀ b ∈ g2, R a b) (runsTrue f l) := by
  induction l using runsTrue.induct f with
  | case1 => simp [runsTrue]
  | case2 x xs hfx ih =>
    rw [runsTrue, if_pos hfx]
    have hsplit : x :: xs = (x :: xs.takeWhile f) ++ xs.dropWhile f := by
      rw [List.cons_append, List.takeWhile_append_dropWhile]
    rw [hsplit] at hs
    rcases List.pairwise_append.mp hs with ⟨h1, h2, hcross⟩
    refine List.Pairwise.cons ?_ (ih h2)
    intro g hg a ha b hb
    exact hcross a ha b ((runsTrue_sublist f _ g hg).subset hb)
  | case3 x xs hfx ih =>
    rw [runsTrue, if_neg hfx]
    exact ih (List.pairwise_cons.mp hs).2

/-- On a strictly time-sorted list, a run contains every list element
whose timestamp lies between the run's first and last timestamps. -/
theorem runsTrue_between {α : Type} (f : ℤ × α → Bool) (l : List (ℤ × α))
    (hs : List.Pairwise (fun p q : ℤ × α => p.1 < q.1) l) :
    ∀ g ∈ runsTrue f l, ∀ hne : g ≠ [], ∀ p ∈ l,
      (g.head hne).1 ≤ p.1 → p.1 ≤ (g.getLast hne).1 → p ∈ g := by
  induction l using runsTrue.induct f with
  | case1 =>
    intro g hg
    simp [runsTrue] at hg
  | case2 x xs hfx ih =>
    have hsplit : x :: xs = (x :: xs.takeWhile f) ++ xs.dropWhile f := by
      rw [List.cons_append, List.takeWhile_append_dropWhile]
    rw [hsplit] at hs
    rcases List.pairwise_append.mp hs with ⟨h1, h2, hcross⟩
    intro g hg hne p hp hlow hhigh
    rw [runsTrue, if_pos hfx] at hg
    rw [hsplit] at hp
    rcases List.mem_cons.mp hg with rfl | hg'
    · rcases List.mem_append.mp hp with hpF | hpD
      · exact hpF
      · exfalso
        have hlast := hcross _ (List.getLast_mem hne) p hpD
        omega
    · rcases List.mem_append.mp hp with hpF | hpD
      · exfalso
        have hheadg : g.head hne ∈ xs.dropWhile f :=
          (runsTrue_sublist f _ g hg').subset (List.head_mem hne)
        have := hcross p hpF _ hheadg
        omega
      · exact ih h2 g hg' hne p hpD hlow hhigh
  | case3 x xs hfx ih =>
    intro g hg hne p hp hlow hhigh
    rw [runsTrue, if_neg hfx] at hg
    have htail := (List.pairwise_cons.mp hs).2
    rcases List.mem_cons.mp hp with rfl | hp'
    · exfalso
      have hheadg : g.head hne ∈ xs :=
        (runsTrue_sublist f xs g hg).subset (List.head_mem hne)
      have := (List.pairwise_cons.mp hs).1 _ hheadg
      omega
    · exact ih htail g hg hne p hp' hlow hhigh

/-- If no element satisfies `f` there are no runs. -/
theorem runsTrue_eq_nil {β : Type} (f : β → Bool) (l : List β)
    (h : ∀ x ∈ l, f x = false) : runsTrue f l = [] := by
  induction l using runsTrue.induct f with
  | case1 => rw [runsTrue]
  | case2 x xs hfx ih => exact absurd (h x (by simp)) (by simp [hfx])
  | case3 x xs hfx ih =>
    rw [runsTrue, if_neg hfx]
    exact ih fun y hy => h y (List.mem_cons_of_mem x hy)

/-! ### Facts about `runWindow` -/

theorem runWindow_spec {α : Type} [LinearOrder α] {g : List (ℤ × α)} {w : Window α}
    (h : runWindow g = some w) :
    ∃ hne : g ≠ [],
      w.wstart = (g.head hne).1 ∧ w.wend = (g.getLast hne).1 ∧
        w.wstart < w.wend ∧ 10 ≤ w.wend - w.wstart := by
  match g with
  | [] => simp [runWindow] at h
  | p :: ps =>
    rw [runWindow] at h
    by_cases hc : 600 ≤ (((p :: ps).getLast (List.cons_ne_nil p ps)).1 - p.1) * 60
    · rw [if_pos hc] at h
      have hw := Option.some.inj h
      refine ⟨List.cons_ne_nil p ps, ?_, ?_, ?_, ?_⟩
      · rw [← hw]
        rfl
      · rw [← hw]
      · rw [← hw]
        show p.1 < ((p :: ps).getLast (List.cons_ne_nil p ps)).1
        omega
      · rw [← hw]
        show (10 : ℤ) ≤ ((p :: ps).getLast (List.cons_ne_nil p ps)).1 - p.1
        omega
    · rw [if_neg hc] at h
      exact absurd h (by simp)

end Opp

open Opp

/-- **C4** (corrected).  The script's height correction adds
`int(1013 − pressure_hpa)` (truncated toward zero) to every sample's
level and leaves every timestamp unchanged; there is no
`base_offset_cm` term. -/
theorem C4_code_correction_is_truncated_pressure_only (p : ℚ) (s : List (ℤ × ℤ)) :
    (correct_levels (pressure_correction p) s).map Prod.fst = s.map Prod.fst ∧
      (correct_levels (pressure_correction p) s).map Prod.snd
        = s.map fun q => q.2 + pressure_correction p := by
  constructor <;> simp [correct_levels]

/-- **C4** counterexample.  At `pressure_hpa = 1013.5` and
`base_offset_cm = 13` the claim's formula predicts an offset of `12.5`
(corrected level `112.5`), but the code leaves the level `100` unchanged:
its offset is `int(1013 − 1013.5) = 0` and no base offset exists. -/
theorem C4_counterexample :
    correct_levels (pressure_correction (2027 / 2)) [(0, 100)] = [(0, 100)] ∧
      (100 : ℚ) + spec_total_offset 13 (2027 / 2) ≠ (100 : ℚ) := by
  have hpc : pressure_correction (2027 / 2) = 0 := by
    have h1 : (1013 : ℚ) - 2027 / 2 = -(1 / 2) := by norm_num
    have h2 : ¬ (0 : ℚ) ≤ -(1 / 2) := by norm_num
    simp only [pressure_correction, pyInt, h1, if_neg h2]
    rw [Int.ceil_eq_zero_iff]
    constructor <;> norm_num
  constructor
  · simp [correct_levels, hpc]
  · simp only [spec_total_offset]
    norm_num

/-- **C10** (confirmed).  The pressure-derived offset is the truncation
toward zero of `1013 − pressure_hpa`: it differs from the exact deviation
by less than 1, never exceeds it in magnitude, vanishes whenever the
deviation is a fraction of an hPa, and the same integer is added to every
sample's level. -/
theorem C10_pressure_offset_truncates_toward_zero (p : ℚ) :
    |((1013 : ℚ) - p) - (pressure_correction p : ℚ)| < 1 ∧
      |(pressure_correction p : ℚ)| ≤ |(1013 : ℚ) - p| ∧
      (|(1013 : ℚ) - p| < 1 → pressure_correction p = 0) ∧
      ∀ s : List (ℤ × ℤ),
        (correct_levels (pressure_correction p) s).map Prod.snd
          = s.map fun q => q.2 + pressure_correction p := by
  set q : ℚ := 1013 - p with hq
  by_cases hq0 : 0 ≤ q
  · have hfl : pressure_correction p = ⌊q⌋ := by
      simp [pressure_correction, pyInt, ← hq, hq0]
    have h1 : (⌊q⌋ : ℚ) ≤ q := Int.floor_le q
    have h2 : q < ⌊q⌋ + 1 := Int.lt_floor_add_one q
    have h3 : (0 : ℚ) ≤ (⌊q⌋ : ℚ) := by
      exact_mod_cast Int.floor_nonneg.mpr hq0
    refine ⟨?_, ?_, ?_, ?_⟩
    · rw [hfl, abs_of_nonneg (by linarith)]; linarith
    · rw [hfl, abs_of_nonneg h3, abs_of_nonneg hq0]; linarith
    · intro habs
      rw [hfl, Int.floor_eq_zero_iff]
      rw [abs_of_nonneg hq0] at habs
      exact ⟨hq0, habs⟩
    · intro s; simp [correct_levels]
  · have hneg : q < 0 := lt_of_not_le hq0
    have hcl : pressure_correction p = ⌈q⌉ := by
      simp [pressure_correction, pyInt, ← hq, hq0]
    have h1 : q ≤ (⌈q⌉ : ℚ) := Int.le_ceil q
    have h2 : (⌈q⌉ : ℚ) < q + 1 := Int.ceil_lt_add_one q
    have h3 : (⌈q⌉ : ℚ) ≤ 0 := by
      have h30 : ⌈q⌉ ≤ (0 : ℤ) := Int.ceil_le.mpr (by exact_mod_cast le_of_lt hneg)
      exact_mod_cast h30
    refine ⟨?_, ?_, ?_, ?_⟩
    · rw [hcl, abs_of_nonpos (by linarith)]; linarith
    · rw [hcl, abs_of_nonpos h3, abs_of_nonpos (le_of_lt hneg)]; linarith
    · intro habs
      rw [hcl, Int.ceil_eq_zero_iff]
      rw [abs_of_nonpos (le_of_lt hneg)] at habs
      constructor
      · linarith
      · exact le_of_lt hneg
    · intro s; simp [correct_levels]

/-- **C10** witness: a half-hPa deviation contributes nothing. -/
theorem C10_witness : pressure_correction (2025 / 2) = 0 := by
  have h := (C10_pressure_offset_truncates_toward_zero (2025 / 2)).2.2.1
  apply h
  rw [abs_lt]
  constructor <;> norm_num

/-- **C6** (corrected, spec-modelled).  With the pressure at the standard
value (zero surge term) the spec pipeline's height offsets compose by
summation: summing the per-sample level changes of a pass with base `a`
and a pass with base `b` equals the level changes of a single pass with
base `a + b`. -/
theorem C6_base_offsets_add_at_standard_pressure (a b : ℚ) (s : List (ℤ × ℚ)) :
    List.zipWith (· + ·) (level_changes a 1013 s) (level_changes b 1013 s)
      = level_changes (a + b) 1013 s := by
  induction s with
  | nil => simp [level_changes, spec_correct]
  | cons x xs ih =>
    rw [level_changes_cons, level_changes_cons, level_changes_cons]
    simp only [List.zipWith_cons_cons, ih, spec_total_offset]
    norm_num

/-- **C6** counterexample.  At pressure `1003` hPa (10 hPa below
standard) the claim as stated fails even with both base offsets zero:
summing the two passes' level changes gives `20` per sample while the
single pass with base `0 + 0` changes the level by `10` — the surge term
is counted twice. -/
theorem C6_counterexample :
    List.zipWith (· + ·) (level_changes 0 1003 [(0, 50)])
        (level_changes 0 1003 [(0, 50)])
      ≠ level_changes (0 + 0) 1003 [(0, 50)] := by
  simp only [level_changes, spec_correct, spec_total_offset, List.map_cons,
    List.map_nil, List.zipWith_cons_cons, List.zipWith_nil_right]
  intro h
  have h2 := List.head_eq_of_cons_eq h
  norm_num at h2

/-- **C3** (corrected).  A calendar day for which none of the three
sources (user input, built-in peak table, agency hourly data) has an
entry is not synthesized: `generate_daily_curve` returns `None` for it,
so `get_dataframe` skips the day; no exception is raised (`None` is a
regular value). -/
theorem C3_missing_day_yields_none (user manual : ℤ → Option (List RawPeak))
    (jma : ℤ → Option (List ℤ)) (pc d : ℤ)
    (hu : user d = none) (hm : manual d = none) (hj : jma d = none) :
    generate_daily_curve user manual jma pc d = none := by
  simp [generate_daily_curve, hu, hm, hj]

/-- **C3** witness: with all sources empty, day 17 is skipped. -/
theorem C3_witness :
    generate_daily_curve (fun _ => none) (fun _ => none) (fun _ => none) 0 17 = none :=
  C3_missing_day_yields_none (fun _ => none) (fun _ => none) (fun _ => none) 0 17
    rfl rfl rfl

/-- **C3** counterexample.  The claim says a day with no external sample
is populated hour-by-hour from a harmonic model; the code instead returns
`None` for such a day and collects no points at all when no day has data
— there is no harmonic fallback in `src/opp.py`. -/
theorem C3_counterexample :
    (¬ ∃ pts, generate_daily_curve (fun _ => none) (fun _ => none) (fun _ => none)
        0 17 = some pts) ∧
      collect_points (fun _ => none) (fun _ => none) (fun _ => none) 0 0 5 = [] := by
  constructor
  · intro hex
    rcases hex with ⟨pts, hpts⟩
    simp [generate_daily_curve] at hpts
  · simp [collect_points, generate_daily_curve]

/-- **C9** (confirmed).  `generate_daily_curve` consults the sources in
fixed priority order: a (non-empty, as `parse_user_input` guarantees)
user entry for the day wins; otherwise a built-in `MANUAL_TIDE_DATA`
entry wins; only when neither exists is the agency hourly entry used. -/
theorem C9_source_priority (user manual : ℤ → Option (List RawPeak))
    (jma : ℤ → Option (List ℤ)) (pc d : ℤ)
    (hu : ∀ ps, user d = some ps → ps ≠ [])
    (hm : ∀ ps, manual d = some ps → ps ≠ []) :
    (∀ ps, user d = some ps →
        generate_daily_curve user manual jma pc d
          = some (ps.map fun p => (d * 1440 + p.time, p.level + pc))) ∧
      (user d = none → ∀ ps, manual d = some ps →
        generate_daily_curve user manual jma pc d
          = some (ps.map fun p => (d * 1440 + p.time, p.level + pc))) ∧
      (user d = none → manual d = none → ∀ hs, jma d = some hs →
        generate_daily_curve user manual jma pc d
          = some (hs.enum.map fun hv => (d * 1440 + (hv.1 : ℤ) * 60, hv.2 + pc))) := by
  refine ⟨?_, ?_, ?_⟩
  · intro ps hps
    simp [generate_daily_curve, hps, hu ps hps]
  · intro hun ps hps
    simp [generate_daily_curve, hun, hps, hm ps hps]
  · intro hun hmn hs hhs
    simp [generate_daily_curve, hun, hmn, hhs]

/-- **C9** witness: a user entry for day 0 overrides everything else. -/
theorem C9_witness :
    generate_daily_curve
        (fun d => if d = 0 then some [⟨600, 250, PKind.H⟩] else none)
        (fun d => if d = 0 then some [⟨30, 40, PKind.L⟩] else none)
        (fun _ => none) 5 0
      = some [(600, 255)] := by
  have h := (C9_source_priority
      (fun d => if d = 0 then some [⟨600, 250, PKind.H⟩] else none)
      (fun d => if d = 0 then some [⟨30, 40, PKind.L⟩] else none)
      (fun _ => none) 5 0
      (by intro ps hps; simp at hps; rw [← hps]; simp)
      (by intro ps hps; simp at hps; rw [← hps]; simp)).1
      [⟨600, 250, PKind.H⟩] (by simp)
  simpa using h

/-- **C8** (corrected).  The plotting stage performs no de-duplication:
every catalogued peak of the five displayed days is returned (count
preserved), so peaks arbitrarily close in time are all kept. -/
theorem C8_no_dedup_count_preserved (user manual : ℤ → Option (List RawPeak))
    (pc d0 : ℤ) :
    (peaks_to_plot user manual pc d0).length
      = ((List.range 5).map fun k : ℕ =>
          (peaksForDay user manual (d0 + (k : ℤ))).length).sum := by
  simp only [peaks_to_plot, List.length_flatMap]
  refine congrArg List.sum (List.map_congr_left ?_)
  intro k _
  simp [Function.comp, List.length_map]

/-- **C8** counterexample.  A user day containing two peaks one minute
apart: both are returned, so the returned peaks are not separated by any
positive `dedup_minutes` (in particular not by the spec's 60-minute
default). -/
theorem C8_counterexample :
    ¬ List.Pairwise (fun p q : ℤ × ℤ × PKind => (60 : ℤ) ≤ |p.1 - q.1|)
        (peaks_to_plot
          (fun d => if d = 0 then some [⟨720, 300, PKind.H⟩, ⟨721, 310, PKind.H⟩] else none)
          (fun _ => none) 0 0) := by
  intro hpw
  have hlist : peaks_to_plot
      (fun d => if d = 0 then some [⟨720, 300, PKind.H⟩, ⟨721, 310, PKind.H⟩] else none)
      (fun _ => none) 0 0
      = [(720, 300, PKind.H), (721, 310, PKind.H)] := by
    simp [peaks_to_plot, peaksForDay, List.range_succ]
  rw [hlist] at hpw
  have h2 := List.rel_of_pairwise_cons hpw (List.mem_singleton.mpr rfl)
  norm_num at h2

/-- **C1** (corrected).  For strictly ascending anchors, the densified
curve passes exactly through every anchor except the last: anchor `i`
(with a successor) appears in the output, and every output point carrying
anchor `i`'s timestamp carries exactly anchor `i`'s level. -/
theorem C1_densify_hits_every_anchor_but_last (anchors : List (ℤ × ℝ))
    (hs : List.Pairwise (fun p q : ℤ × ℝ => p.1 < q.1) anchors)
    (i : ℕ) (hi : i + 1 < anchors.length) :
    anchors.get ⟨i, Nat.lt_of_succ_lt hi⟩ ∈ densify anchors ∧
      ∀ p ∈ densify anchors, p.1 = (anchors.get ⟨i, Nat.lt_of_succ_lt hi⟩).1 →
        p.2 = (anchors.get ⟨i, Nat.lt_of_succ_lt hi⟩).2 := by
  induction anchors generalizing i with
  | nil => simp at hi
  | cons a rest ih =>
    cases rest with
    | nil => simp at hi
    | cons b rest' =>
      have htail : List.Pairwise (fun p q : ℤ × ℝ => p.1 < q.1) (b :: rest') :=
        (List.pairwise_cons.mp hs).2
      have hab : a.1 < b.1 := (List.pairwise_cons.mp hs).1 b (by simp)
      cases i with
      | zero =>
        constructor
        · show a ∈ densify (a :: b :: rest')
          rw [densify]
          apply List.mem_append_left
          have := mem_densifyPair_self a.1 b.1 a.2 b.2 hab
          simpa using this
        · intro p hp hpt
          rw [densify] at hp
          rcases List.mem_append.mp hp with h | h
          · exact densifyPair_at_start h hpt
          · have hb := densify_time_lower htail p h
            simp only [List.get] at hpt
            omega
      | succ j =>
        have hi' : j + 1 < (b :: rest').length := by simpa using hi
        have ih' := ih htail j hi'
        constructor
        · show (b :: rest').get ⟨j, Nat.lt_of_succ_lt hi'⟩ ∈ densify (a :: b :: rest')
          rw [densify]
          exact List.mem_append_right _ ih'.1
        · intro p hp hpt
          rw [densify] at hp
          have hget : ((a :: b :: rest').get ⟨j + 1, Nat.lt_of_succ_lt hi⟩)
              = (b :: rest').get ⟨j, Nat.lt_of_succ_lt hi'⟩ := rfl
          rw [hget] at hpt ⊢
          rcases List.mem_append.mp hp with h | h
          · have hlt := (densifyPair_time_bounds h).2
            have hble := head_time_le_get htail j (Nat.lt_of_succ_lt hi')
            omega
          · exact ih'.2 p h hpt

/-- **C1** witness: the first of the two anchors `(0,100)`, `(60,200)` is
reproduced exactly in the densified output. -/
theorem C1_witness :
    ((0 : ℤ), (100 : ℝ)) ∈ densify [((0 : ℤ), (100 : ℝ)), ((60 : ℤ), (200 : ℝ))] :=
  (C1_densify_hits_every_anchor_but_last
    [((0 : ℤ), (100 : ℝ)), ((60 : ℤ), (200 : ℝ))]
    (by norm_num [List.pairwise_cons]) 0 (by norm_num)).1

/-- **C1** counterexample.  The claim includes the last anchor, but the
densification loop never emits the final anchor's timestamp: no output
point of the two-anchor run `(0,100)`, `(60,200)` sits at time 60. -/
theorem C1_counterexample :
    ¬ ∃ p ∈ densify [((0 : ℤ), (100 : ℝ)), ((60 : ℤ), (200 : ℝ))],
        p.1 = 60 ∧ p.2 = 200 := by
  rintro ⟨p, hp, hp1, -⟩
  rw [densify] at hp
  rcases List.mem_append.mp hp with h | h
  · have := (densifyPair_time_bounds h).2
    omega
  · rw [densify] at h
    simp at h

/-- **C5** (corrected).  Densifying the anchors `(t=0, 100)` and
`(t=60 min, 200)` with the script's per-minute cosine loop yields exactly
60 points (minutes 0–59, the final anchor's time being absent), the first
equal to `100`, and every other point strictly between `100` and `200`. -/
theorem C5_two_anchor_densification :
    (densify [((0 : ℤ), (100 : ℝ)), ((60 : ℤ), (200 : ℝ))]).length = 60 ∧
      (densify [((0 : ℤ), (100 : ℝ)), ((60 : ℤ), (200 : ℝ))]).head?
        = some ((0 : ℤ), (100 : ℝ)) ∧
      ∀ p ∈ densify [((0 : ℤ), (100 : ℝ)), ((60 : ℤ), (200 : ℝ))],
        p.1 ≠ 0 → (100 : ℝ) < p.2 ∧ p.2 < 200 := by
  have hdp := densify_two_anchors
  refine ⟨?_, ?_, ?_⟩
  · rw [hdp]
    simp
  · rw [hdp, List.head?_map]
    have hr : (List.range 60).head? = some 0 := by decide
    rw [hr]
    simp [cosInterp_zero]
  · intro p hp hp0
    rw [hdp] at hp
    rcases List.mem_map.mp hp with ⟨m, hm, rfl⟩
    have hm' := List.mem_range.mp hm
    have hm1 : 1 ≤ m := by
      by_contra hlt
      apply hp0
      simp only []
      omega
    exact cosInterp_strict_bounds (by norm_num : (100 : ℝ) < 200) hm1 hm'

/-- **C5** witness: minute 30 of the two-anchor run lies strictly between
the anchor levels. -/
theorem C5_witness :
    (100 : ℝ) < cosInterp 100 200 30 60 ∧ cosInterp 100 200 30 60 < 200 := by
  have hdp := densify_two_anchors
  have hmem : ((30 : ℤ), cosInterp 100 200 30 60)
      ∈ densify [((0 : ℤ), (100 : ℝ)), ((60 : ℤ), (200 : ℝ))] := by
    rw [hdp]
    exact List.mem_map.mpr ⟨30, List.mem_range.mpr (by norm_num), rfl⟩
  exact C5_two_anchor_densification.2.2 _ hmem (by norm_num)

/-- **C5** counterexample.  The claim demands exactly 7 points for
`interval_minutes = 10`; the script has no interval parameter and emits
one point per minute, 60 points here. -/
theorem C5_counterexample :
    (densify [((0 : ℤ), (100 : ℝ)), ((60 : ℤ), (200 : ℝ))]).length ≠ 7 := by
  rw [densify_two_anchors]
  simp

/-- **C2** (confirmed).  For a strictly time-sorted dense series, every
sample whose timestamp lies inside a returned window is below the
threshold and inside the allowed hour range; the windows are pairwise
non-overlapping and sorted ascending by start time; and every window
satisfies `start < end` with a span of at least 10 minutes (the
hard-coded 600-second minimum). -/
theorem C2_safe_windows_invariants {α : Type} [LinearOrder α]
    (series : List (ℤ × α)) (thr : α) (sh eh : ℤ)
    (hs : List.Pairwise (fun p q : ℤ × α => p.1 < q.1) series) :
    (∀ w ∈ safe_windows series thr sh eh, ∀ p ∈ series,
        w.wstart ≤ p.1 → p.1 ≤ w.wend →
        p.2 ≤ thr ∧ sh ≤ hourOf p.1 ∧ hourOf p.1 < eh) ∧
      (∀ w ∈ safe_windows series thr sh eh,
        w.wstart < w.wend ∧ 10 ≤ w.wend - w.wstart) ∧
      List.Pairwise (fun w1 w2 : Window α => w1.wend < w2.wstart)
        (safe_windows series thr sh eh) ∧
      List.Pairwise (fun w1 w2 : Window α => w1.wstart < w2.wstart)
        (safe_windows series thr sh eh) := by
  have hfm : ∀ w ∈ safe_windows series thr sh eh,
      ∃ g ∈ runsTrue (is_safe thr sh eh) series, runWindow g = some w :=
    fun w hw => List.mem_filterMap.mp hw
  have overlap : List.Pairwise (fun w1 w2 : Window α => w1.wend < w2.wstart)
      (safe_windows series thr sh eh) := by
    apply List.Pairwise.filterMap runWindow ?_
      (runsTrue_cross (fun p q : ℤ × α => p.1 < q.1) (is_safe thr sh eh) series hs)
    intro g1 g2 hR w1 hw1 w2 hw2
    rcases runWindow_spec hw1 with ⟨hne1, _, he1, _, _⟩
    rcases runWindow_spec hw2 with ⟨hne2, hs2, _, _, _⟩
    rw [he1, hs2]
    exact hR _ (List.getLast_mem hne1) _ (List.head_mem hne2)
  have durations : ∀ w ∈ safe_windows series thr sh eh,
      w.wstart < w.wend ∧ 10 ≤ w.wend - w.wstart := by
    intro w hw
    rcases hfm w hw with ⟨g, hg, hrw⟩
    rcases runWindow_spec hrw with ⟨hne, _, _, h1, h2⟩
    exact ⟨h1, h2⟩
  refine ⟨?_, durations, overlap, ?_⟩
  · intro w hw p hp hlo hhi
    rcases hfm w hw with ⟨g, hg, hrw⟩
    rcases runWindow_spec hrw with ⟨hne, hws, hwe, _, _⟩
    have hpin : p ∈ g :=
      runsTrue_between (is_safe thr sh eh) series hs g hg hne p hp
        (by rw [← hws]; exact hlo) (by rw [← hwe]; exact hhi)
    have hsafe := runsTrue_all_true (is_safe thr sh eh) series g hg p hpin
    simp only [is_safe, Bool.and_eq_true, decide_eq_true_eq] at hsafe
    exact ⟨hsafe.1.1, hsafe.1.2, hsafe.2⟩
  · exact List.Pairwise.imp_of_mem
      (fun h1 h2 hlt => lt_trans (durations _ h1).1 hlt) overlap

/-- **C2** witness: a concrete all-safe series produces the single window
`[0, 15]` whose interior sample at `t = 5` is certified safe. -/
theorem C2_witness :
    ((5 : ℤ), (10 : ℤ)).2 ≤ (50 : ℤ) ∧
      (0 : ℤ) ≤ hourOf ((5 : ℤ), (10 : ℤ)).1 ∧ hourOf ((5 : ℤ), (10 : ℤ)).1 < 24 := by
  have hval : safe_windows [((0 : ℤ), (10 : ℤ)), (5, 10), (10, 3), (15, 10)] 50 0 24
      = [⟨0, 15, 10, 3⟩] := by
    norm_num [safe_windows, runsTrue, is_safe, hourOf, List.takeWhile, List.dropWhile,
      runWindow, minSample, List.filterMap_cons, List.filterMap_nil, List.getLast,
      List.foldl]
  have h := (C2_safe_windows_invariants
      [((0 : ℤ), (10 : ℤ)), (5, 10), (10, 3), (15, 10)] 50 0 24 (by decide)).1
  rw [hval] at h
  exact h ⟨0, 15, 10, 3⟩ (by simp) ((5 : ℤ), (10 : ℤ)) (by simp) (by norm_num) (by norm_num)

/-- **C7** (confirmed).  An empty hour range (`start_hour = end_hour`)
yields no windows, and a threshold below every level of the series yields
no windows; neither case is an error. -/
theorem C7_empty_hour_range_or_low_threshold {α : Type} [LinearOrder α]
    (series : List (ℤ × α)) (thr : α) (sh eh : ℤ) :
    (sh = eh → safe_windows series thr sh eh = []) ∧
      ((∀ p ∈ series, thr < p.2) → safe_windows series thr sh eh = []) := by
  constructor
  · intro he
    subst he
    rw [safe_windows, runsTrue_eq_nil, List.filterMap_nil]
    intro p _
    rw [Bool.eq_false_iff]
    intro hT
    simp only [is_safe, Bool.and_eq_true, decide_eq_true_eq] at hT
    omega
  · intro hthr
    rw [safe_windows, runsTrue_eq_nil, List.filterMap_nil]
    intro p hp
    rw [Bool.eq_false_iff]
    intro hT
    simp only [is_safe, Bool.and_eq_true, decide_eq_true_eq] at hT
    exact absurd hT.1.1 (not_le.mpr (hthr p hp))

/-- **C7** witness: hour range `7–7` yields no windows on a series that
is otherwise entirely below the threshold. -/
theorem C7_witness : safe_windows [((0 : ℤ), (5 : ℤ))] 10 7 7 = [] :=
  (C7_empty_hour_range_or_low_threshold [((0 : ℤ), (5 : ℤ))] 10 7 7).1 rfl
